import Mathlib

/-!
# Verification of the graphiti integration layer

This file embeds, in Lean, the parts of the repository that the design
specification describes:

* the per-`group_id` episode queue of `mcp_server/graphiti_mcp_server.py`
  (`episode_queues`, `queue_workers`, `process_episode_queue`, `add_memory`),
  modelled as a labelled transition system over the single-threaded asyncio
  event loop: each transition is one uninterrupted segment of Python code
  between genuine suspension points;
* `FalkorDriver.execute_query` of `graphiti_core/driver/falkordb_driver.py`;
* `DriverFactory.create_driver` of `graphiti_core/driver/factory.py`.

## Atomicity of the modelled transitions

On an asyncio event loop a coroutine runs uninterrupted until an `await`
that actually suspends.  `asyncio.Queue.put` on an unbounded queue and
`asyncio.Queue.get` on a non-empty queue complete without suspending, so:

* the whole body of `add_memory` (create queue if absent, put, check
  `queue_workers.get(gid, False)`, `asyncio.create_task`, build response)
  is one atomic step (`addMemory`);
* a spawned worker's first slice runs `queue_workers[gid] = True` and the
  first `get()`: if the queue is non-empty it dequeues and enters the
  episode body up to its first real `await` (`startStep`); if empty it
  parks on `get()` (`startStep` leaves it `waiting`);
* when an in-flight episode finishes (normally or by raising, the
  exception being caught and logged), the worker runs `task_done()` and
  the next `get()` in one slice (`finishStep`);
* a parked worker woken by a `put` dequeues in a later slice (`wakeStep`);
* a `CancelledError` or an exception escaping the per-episode `try` runs
  the outer `finally`, which sets `queue_workers[gid] = False` and ends
  the task (`stopStep`).
-/

/-- A queued episode-processing closure.  Only the behaviour visible to the
queue mechanism is kept: an identity (for tracing) and whether the closure
raises when awaited. -/
structure Op where
  id : Nat
  raises : Bool
deriving DecidableEq

/-- An `asyncio.Queue`: the pending items (front = next to dequeue) and the
unfinished-task counter (incremented by `put`, decremented by `task_done`). -/
structure EQueue where
  items : List Op
  unfinished : Nat
deriving DecidableEq

/-- Where a worker task is in `process_episode_queue`:
created by `asyncio.create_task` but not yet run (`spawned`), parked on an
empty-queue `get()` (`waiting`), or awaiting an episode body (`executing`). -/
inductive WPhase where
  | spawned
  | waiting
  | executing (op : Op)
deriving DecidableEq

/-- A live worker task (`asyncio.create_task(process_episode_queue(gid))`). -/
structure WTask where
  tid : Nat
  gid : String
  phase : WPhase
deriving DecidableEq

/-- Observable events, recorded in submission/execution order:
`enq` = `put` into the queue, `began`/`ended` = an episode body starting /
finishing its execution, `errlog` = `logger.error` for a raising episode. -/
inductive Ev where
  | enq (k : String) (id : Nat)
  | began (k : String) (id : Nat)
  | ended (k : String) (id : Nat)
  | errlog (k : String) (id : Nat)
deriving DecidableEq

/-- Association-list lookup, the model of Python `dict` access.  Python
dicts keep insertion order, which `aset` below also preserves. -/
def alookup {α : Type} : List (String × α) → String → Option α
  | [], _ => none
  | (k', v) :: rest, k => if k = k' then some v else alookup rest k

/-- Association-list update: overwrite in place if the key is present,
append otherwise (Python `d[k] = v`). -/
def aset {α : Type} : List (String × α) → String → α → List (String × α)
  | [], k, v => [(k, v)]
  | (k', v') :: rest, k, v =>
    if k = k' then (k', v) :: rest else (k', v') :: aset rest k v

/-- The process-wide state: `episode_queues` and `queue_workers` module
globals, the set of live worker tasks, the `asyncio` task counter used to
give fresh task ids, whether `graphiti_client` is initialized, and the
event trace. -/
structure Sys where
  episode_queues : List (String × EQueue)
  queue_workers : List (String × Bool)
  tasks : List WTask
  nextTid : Nat
  clientInit : Bool
  events : List Ev
deriving DecidableEq

/-- The value `add_memory` returns to its caller: `SuccessResponse` whose
message embeds the queue position (`qsize()` after the put), or
`ErrorResponse` with an error message. -/
inductive Response where
  | success (position : Nat)
  | error (msg : String)
deriving DecidableEq

/-- `add_memory` (the queueing part, lines 991-1057 of
`graphiti_mcp_server.py`): guard on `graphiti_client`, create the queue for
the key if absent, `put` the closure, spawn `process_episode_queue` as a
task iff `queue_workers.get(gid, False)` is falsy, and return a success
acknowledgment carrying `qsize()`.  Note the spawned task has phase
`spawned`: `queue_workers[gid] = True` is executed by the worker itself
when it first runs, not here. -/
def addMemory (s : Sys) (k : String) (op : Op) : Sys × Response :=
  if s.clientInit = false then
    (s, .error "Graphiti client not initialized")
  else
    let qs := match alookup s.episode_queues k with
      | none => aset s.episode_queues k ⟨[], 0⟩
      | some _ => s.episode_queues
    let q := (alookup qs k).getD ⟨[], 0⟩
    let q' : EQueue := ⟨q.items ++ [op], q.unfinished + 1⟩
    let spawn := ((alookup s.queue_workers k).getD false) = false
    let s' : Sys :=
      { s with
        episode_queues := aset qs k q'
        tasks := if spawn then s.tasks ++ [⟨s.nextTid, k, .spawned⟩] else s.tasks
        nextTid := if spawn then s.nextTid + 1 else s.nextTid
        events := s.events ++ [.enq k op.id] }
    (s', .success q'.items.length)

/-- `await queue.get()`: dequeue the head and begin executing it, or park
if the queue is empty.  `get` does not change the unfinished counter. -/
def tryGet (q : EQueue) : EQueue × WPhase :=
  match q.items with
  | [] => (q, .waiting)
  | op :: rest => (⟨rest, q.unfinished⟩, .executing op)

/-- Replace the phase of the task with the given id. -/
def setPhase (ts : List WTask) (tid : Nat) (ph : WPhase) : List WTask :=
  ts.map fun u => if u.tid = tid then ⟨u.tid, u.gid, ph⟩ else u

/-- The `began` event emitted when `tryGet` dequeues an episode. -/
def beganEvents (k : String) (ph : WPhase) : List Ev :=
  match ph with
  | .executing op => [.began k op.id]
  | _ => []

/-- First slice of a spawned `process_episode_queue` task: set
`queue_workers[gid] = True`, then the first `get()` (dequeue-and-begin or
park). -/
def startStep (s : Sys) (tid : Nat) : Option Sys :=
  match s.tasks.find? (fun t => t.tid = tid) with
  | some t =>
    match t.phase with
    | .spawned =>
      match alookup s.episode_queues t.gid with
      | some q =>
        let r := tryGet q
        some { s with
          queue_workers := aset s.queue_workers t.gid true
          episode_queues := aset s.episode_queues t.gid r.1
          tasks := setPhase s.tasks tid r.2
          events := s.events ++ beganEvents t.gid r.2 }
      | none => none
    | _ => none
  | none => none

/-- Slice run when the awaited episode body completes (normally or by
raising: the `except` logs and swallows the exception): `task_done()` in
the `finally`, then the next `get()`. -/
def finishStep (s : Sys) (tid : Nat) : Option Sys :=
  match s.tasks.find? (fun t => t.tid = tid) with
  | some t =>
    match t.phase with
    | .executing op =>
      match alookup s.episode_queues t.gid with
      | some q =>
        let r := tryGet ⟨q.items, q.unfinished - 1⟩
        some { s with
          episode_queues := aset s.episode_queues t.gid r.1
          tasks := setPhase s.tasks tid r.2
          events := s.events ++ [.ended t.gid op.id]
            ++ (if op.raises then [.errlog t.gid op.id] else [])
            ++ beganEvents t.gid r.2 }
      | none => none
    | _ => none
  | none => none

/-- A worker parked on `get()` resumes after a `put`: dequeue and begin. -/
def wakeStep (s : Sys) (tid : Nat) : Option Sys :=
  match s.tasks.find? (fun t => t.tid = tid) with
  | some t =>
    match t.phase with
    | .waiting =>
      match alookup s.episode_queues t.gid with
      | some q =>
        match q.items with
        | [] => none
        | op :: rest =>
          some { s with
            episode_queues := aset s.episode_queues t.gid ⟨rest, q.unfinished⟩
            tasks := setPhase s.tasks tid (.executing op)
            events := s.events ++ [.began t.gid op.id] }
      | none => none
    | _ => none
  | none => none

/-- `CancelledError` delivered at an await point, or an exception escaping
the per-episode catch: the outer `finally` sets `queue_workers[gid] =
False` and the task ends.  An episode that was mid-execution is
interrupted (no `ended` event). -/
def stopStep (s : Sys) (tid : Nat) : Option Sys :=
  match s.tasks.find? (fun t => t.tid = tid) with
  | some t =>
    match t.phase with
    | .spawned => none
    | _ =>
      some { s with
        queue_workers := aset s.queue_workers t.gid false
        tasks := s.tasks.filter (fun u => !(u.tid = tid : Bool)) }
  | none => none

/-- Scheduler choices: which atomic slice runs next. -/
inductive Label where
  | submit (k : String) (op : Op)
  | start (tid : Nat)
  | finish (tid : Nat)
  | wake (tid : Nat)
  | stop (tid : Nat)
deriving DecidableEq

/-- One scheduler step.  `none` means the label is not enabled in `s`. -/
def stepFn : Label → Sys → Option Sys
  | .submit k op, s => some (addMemory s k op).1
  | .start tid, s => startStep s tid
  | .finish tid, s => finishStep s tid
  | .wake tid, s => wakeStep s tid
  | .stop tid, s => stopStep s tid

/-- Run a whole schedule; `none` if some label is not enabled. -/
def runTrace : List Label → Sys → Option Sys
  | [], s => some s
  | l :: ls, s =>
    match stepFn l s with
    | some s' => runTrace ls s'
    | none => none

/-- The state at server start: empty tables, no tasks, client initialized. -/
def initSys : Sys := ⟨[], [], [], 0, true, []⟩

example : (addMemory initSys "g" ⟨1, false⟩).2 = .success 1 := by decide

example :
    runTrace [.submit "g" ⟨1, false⟩, .start 0, .finish 0] initSys ≠ none := by
  decide

/-! ## Concrete schedules for the concurrency claims -/

/-- A first episode closure (does not raise). -/
def opA : Op := ⟨1, false⟩

/-- A second episode closure (does not raise). -/
def opB : Op := ⟨2, false⟩

/-- A realizable asyncio schedule: two `add_memory` calls for `"g"` both
complete before either spawned worker task gets its first slice (both
requests were already in the ready queue ahead of the created tasks), then
the two worker tasks start.  The second call sees
`queue_workers.get("g", False) = False` — the flag is only set by a worker
when it first runs — and spawns a second worker. -/
def burstTrace : List Label :=
  [.submit "g" opA, .submit "g" opB, .start 0, .start 1]

/-- The state the burst schedule reaches. -/
def burstState : Sys := (runTrace burstTrace initSys).getD initSys

/-- The worker loops for key `k` that are past `queue_workers[k] = True`,
i.e. simultaneously active in the sense of the single-worker invariant. -/
def activeWorkersFor (s : Sys) (k : String) : List WTask :=
  s.tasks.filter fun t => decide (t.gid = k ∧ t.phase ≠ WPhase.spawned)

/-- C1: the single-worker invariant fails on the code.  The burst schedule
is reachable from the initial state and ends with TWO `process_episode_queue`
worker loops simultaneously active for the key `"g"` (both past the point
where they set `queue_workers["g"] = True`, both executing an episode). -/
theorem c1_two_workers_active_for_same_key :
    runTrace burstTrace initSys = some burstState ∧
      (activeWorkersFor burstState "g").length = 2 ∧
      WTask.mk 0 "g" (.executing opA) ∈ burstState.tasks ∧
      WTask.mk 1 "g" (.executing opB) ∈ burstState.tasks := by
  decide

/-- The burst schedule continued by one more step: the second worker's
episode (`opB`) finishes while the first worker is still executing `opA`. -/
def burstFinishTrace : List Label := burstTrace ++ [.finish 1]

/-- The state the extended burst schedule reaches. -/
def burstFinishState : Sys := (runTrace burstFinishTrace initSys).getD initSys

/-- C2: FIFO-without-overlap fails on the code.  Under the reachable burst
schedule, operation 2 — submitted for `"g"` after operation 1 — both begins
(`began "g" 2` with no preceding `ended "g" 1`) and completes
(`ended "g" 2`) while operation 1 is still executing, so same-key
operations overlap and finish out of submission order. -/
theorem c2_same_key_operations_overlap :
    runTrace burstFinishTrace initSys = some burstFinishState ∧
      burstFinishState.events =
        [.enq "g" 1, .enq "g" 2, .began "g" 1, .began "g" 2, .ended "g" 2] ∧
      WTask.mk 0 "g" (.executing opA) ∈ burstFinishState.tasks := by
  decide

/-- A schedule submitting one operation for each of two distinct keys and
starting both workers. -/
def crossKeyTrace : List Label :=
  [.submit "a" opA, .submit "b" opB, .start 0, .start 1]

/-- The state the cross-key schedule reaches. -/
def crossKeyState : Sys := (runTrace crossKeyTrace initSys).getD initSys

/-- C9: cross-key concurrency.  Operations for two distinct keys may
execute with overlapping lifetimes: a reachable schedule ends with the
worker for `"a"` executing its operation and the worker for `"b"`
simultaneously executing its own — no mutual exclusion across keys. -/
theorem c9_distinct_keys_execute_concurrently :
    runTrace crossKeyTrace initSys = some crossKeyState ∧
      WTask.mk 0 "a" (.executing opA) ∈ crossKeyState.tasks ∧
      WTask.mk 1 "b" (.executing opB) ∈ crossKeyState.tasks := by
  decide

/-! ## Association-list lemmas -/

theorem alookup_aset_self {α : Type} (m : List (String × α)) (k : String) (v : α) :
    alookup (aset m k v) k = some v := by
  induction m with
  | nil => simp [aset, alookup]
  | cons hd tl ih =>
    obtain ⟨k', v'⟩ := hd
    by_cases h : k = k'
    · subst h; simp [aset, alookup]
    · simp [aset, alookup, h, ih]

theorem alookup_aset_ne {α : Type} (m : List (String × α)) (k k' : String) (v : α)
    (h : k ≠ k') : alookup (aset m k' v) k = alookup m k := by
  induction m with
  | nil => simp [aset, alookup, h]
  | cons hd tl ih =>
    obtain ⟨k'', v''⟩ := hd
    by_cases h2 : k' = k''
    · subst h2; simp [aset, alookup, h]
    · simp [aset, alookup, h2]
      by_cases h3 : k = k''
      · simp [h3]
      · simp [h3, ih]

theorem setPhase_gids (ts : List WTask) (tid : Nat) (ph : WPhase) :
    ∀ u ∈ setPhase ts tid ph, ∃ t ∈ ts, u.gid = t.gid := by
  intro u hu
  simp only [setPhase, List.mem_map] at hu
  obtain ⟨t, ht, heq⟩ := hu
  refine ⟨t, ht, ?_⟩
  subst heq
  by_cases h : t.tid = tid <;> simp [h]

/-- The pending (not yet dequeued) operations for key `k`. -/
def queueItems (s : Sys) (k : String) : List Op :=
  ((alookup s.episode_queues k).getD ⟨[], 0⟩).items

/-- C5: fire-and-forget submission.  Whenever the client is initialized,
`add_memory` returns, within its single uninterrupted event-loop slice, a
success acknowledgment carrying the new queue depth for the key; the
operation is only enqueued, not run (the only event added is the enqueue,
never a `began`/`ended`); and the response is identical whether the
operation will eventually raise or succeed, so the operation's result or
error is never returned to the caller. -/
theorem c5_submission_is_fire_and_forget (s : Sys) (k : String) (op : Op)
    (h : s.clientInit = true) :
    (addMemory s k op).2 = .success ((queueItems s k).length + 1) ∧
      queueItems (addMemory s k op).1 k = queueItems s k ++ [op] ∧
      (addMemory s k op).1.events = s.events ++ [.enq k op.id] ∧
      (∀ b b' : Bool,
        (addMemory s k ⟨op.id, b⟩).2 = (addMemory s k ⟨op.id, b'⟩).2) := by
  rcases hq : alookup s.episode_queues k with _ | q
  · simp [addMemory, h, hq, queueItems, alookup_aset_self]
  · simp [addMemory, h, hq, queueItems, alookup_aset_self]

/-- Witness for C5: the first submission from the initial state is
acknowledged at depth 1 and only enqueued. -/
theorem c5_submission_is_fire_and_forget_witness :
    (addMemory initSys "g" opA).2 = .success ((queueItems initSys "g").length + 1) ∧
      queueItems (addMemory initSys "g" opA).1 "g" = queueItems initSys "g" ++ [opA] ∧
      (addMemory initSys "g" opA).1.events = initSys.events ++ [.enq "g" opA.id] ∧
      (∀ b b' : Bool,
        (addMemory initSys "g" ⟨opA.id, b⟩).2 = (addMemory initSys "g" ⟨opA.id, b'⟩).2) :=
  c5_submission_is_fire_and_forget initSys "g" opA rfl

/-- C6: worker-fatal errors self-heal.  If a started worker task `t` is
cancelled or an error escapes its per-operation catch boundary (the
`stopStep` slice, i.e. the outer `except`/`finally` of
`process_episode_queue`), then afterwards the worker-active flag for its
key reads `False`, the worker task is gone, and any subsequent `add_memory`
for the same key spawns a fresh worker task. -/
theorem c6_fatal_error_resets_flag_and_respawns (s s' : Sys) (tid : Nat) (t : WTask)
    (hf : s.tasks.find? (fun u => u.tid = tid) = some t)
    (hstop : stopStep s tid = some s')
    (hc : s.clientInit = true) :
    alookup s'.queue_workers t.gid = some false ∧
      (∀ u ∈ s'.tasks, u.tid ≠ tid) ∧
      ∀ op : Op, (addMemory s' t.gid op).1.tasks
        = s'.tasks ++ [⟨s'.nextTid, t.gid, .spawned⟩] := by
  unfold stopStep at hstop
  rw [hf] at hstop
  have hs' : s' = { s with
      queue_workers := aset s.queue_workers t.gid false
      tasks := s.tasks.filter (fun u => !(u.tid = tid : Bool)) } := by
    cases hp : t.phase
    case spawned => simp [hp] at hstop
    case waiting => simp only [hp] at hstop; exact (Option.some.inj hstop).symm
    case executing op => simp only [hp] at hstop; exact (Option.some.inj hstop).symm
  subst hs'
  refine ⟨alookup_aset_self _ _ _, ?_, ?_⟩
  · intro u hu
    simp only [List.mem_filter, Bool.not_eq_true', decide_eq_false_iff_not] at hu
    exact hu.2
  · intro op
    simp [addMemory, hc, alookup_aset_self]

/-- The state after one submission for `"g"` and the worker's first slice. -/
def c6Started : Sys := (runTrace [.submit "g" opA, .start 0] initSys).getD initSys

/-- The state after that worker is cancelled / dies fatally. -/
def c6Stopped : Sys := (stopStep c6Started 0).getD initSys

/-- Witness for C6: concretely stopping the started worker for `"g"`
resets its flag to `False`, removes the task, and a new submission spawns
a fresh worker. -/
theorem c6_fatal_error_resets_flag_and_respawns_witness :
    alookup c6Stopped.queue_workers "g" = some false ∧
      (∀ u ∈ c6Stopped.tasks, u.tid ≠ 0) ∧
      ∀ op : Op, (addMemory c6Stopped "g" op).1.tasks
        = c6Stopped.tasks ++ [⟨c6Stopped.nextTid, "g", .spawned⟩] :=
  c6_fatal_error_resets_flag_and_respawns c6Started c6Stopped 0
    ⟨0, "g", .executing opA⟩ (by decide) (by decide) (by decide)

/-! ## Keys never submitted are never touched (lazy worker creation) -/

theorem addMemory_workers (s : Sys) (k' : String) (op : Op) :
    (addMemory s k' op).1.queue_workers = s.queue_workers := by
  by_cases hc : s.clientInit = false <;>
    rcases hq : alookup s.episode_queues k' with _ | q <;>
    simp [addMemory, hc, hq]

theorem addMemory_tasks (s : Sys) (k' : String) (op : Op) :
    (addMemory s k' op).1.tasks = s.tasks ∨
      (addMemory s k' op).1.tasks = s.tasks ++ [⟨s.nextTid, k', .spawned⟩] := by
  by_cases hc : s.clientInit = false <;>
    rcases hq : alookup s.episode_queues k' with _ | q <;>
    simp [addMemory, hc, hq]

theorem addMemory_queues_ne (s : Sys) (k k' : String) (op : Op) (hne : k ≠ k') :
    alookup (addMemory s k' op).1.episode_queues k = alookup s.episode_queues k := by
  by_cases hc : s.clientInit = false <;>
    rcases hq : alookup s.episode_queues k' with _ | q <;>
    simp [addMemory, hc, hq, alookup_aset_ne _ _ _ _ hne]

/-- A key with no queue entry, no worker-table entry and no worker task. -/
def untouched (k : String) (s : Sys) : Prop :=
  alookup s.episode_queues k = none ∧ alookup s.queue_workers k = none ∧
    ∀ t ∈ s.tasks, t.gid ≠ k

/-- No scheduler step other than a submission for `k` can create a queue,
worker-table entry or worker task for `k`. -/
theorem stepFn_untouched (l : Label) (s s' : Sys) (k : String)
    (h : stepFn l s = some s') (hl : ∀ op, l ≠ .submit k op)
    (hu : untouched k s) : untouched k s' := by
  obtain ⟨hu1, hu2, hu3⟩ := hu
  cases l with
  | submit k' op =>
    have hne : k ≠ k' := by
      intro hkk
      exact hl op (by rw [hkk])
    simp only [stepFn] at h
    obtain rfl := Option.some.inj h
    refine ⟨?_, ?_, ?_⟩
    · rw [addMemory_queues_ne _ _ _ _ hne]; exact hu1
    · rw [addMemory_workers]; exact hu2
    · intro t htm
      rcases addMemory_tasks s k' op with he | he
      · exact hu3 t (he ▸ htm)
      · rw [he] at htm
        rcases List.mem_append.mp htm with hm | hm
        · exact hu3 t hm
        · simp only [List.mem_singleton] at hm
          subst hm
          exact Ne.symm hne
  | start tid =>
    simp only [stepFn] at h
    unfold startStep at h
    rcases hf : s.tasks.find? (fun u => u.tid = tid) with _ | t <;> rw [hf] at h
    · exact Option.noConfusion h
    · have ht : t ∈ s.tasks := List.mem_of_find?_eq_some hf
      have hg : t.gid ≠ k := hu3 t ht
      cases hp : t.phase
      case waiting => simp [hp] at h
      case executing op => simp [hp] at h
      case spawned =>
        simp only [hp] at h
        rcases hq : alookup s.episode_queues t.gid with _ | q
        · simp [hq] at h
        · simp only [hq] at h
          obtain rfl := Option.some.inj h
          refine ⟨?_, ?_, ?_⟩
          · rw [alookup_aset_ne _ _ _ _ (Ne.symm hg)]; exact hu1
          · rw [alookup_aset_ne _ _ _ _ (Ne.symm hg)]; exact hu2
          · intro u hup
            obtain ⟨t', ht', heq⟩ := setPhase_gids _ _ _ u hup
            rw [heq]; exact hu3 t' ht'
  | finish tid =>
    simp only [stepFn] at h
    unfold finishStep at h
    rcases hf : s.tasks.find? (fun u => u.tid = tid) with _ | t <;> rw [hf] at h
    · exact Option.noConfusion h
    · have ht : t ∈ s.tasks := List.mem_of_find?_eq_some hf
      have hg : t.gid ≠ k := hu3 t ht
      cases hp : t.phase
      case waiting => simp [hp] at h
      case spawned => simp [hp] at h
      case executing op =>
        simp only [hp] at h
        rcases hq : alookup s.episode_queues t.gid with _ | q
        · simp [hq] at h
        · simp only [hq] at h
          obtain rfl := Option.some.inj h
          refine ⟨?_, ?_, ?_⟩
          · rw [alookup_aset_ne _ _ _ _ (Ne.symm hg)]; exact hu1
          · exact hu2
          · intro u hup
            obtain ⟨t', ht', heq⟩ := setPhase_gids _ _ _ u hup
            rw [heq]; exact hu3 t' ht'
  | wake tid =>
    simp only [stepFn] at h
    unfold wakeStep at h
    rcases hf : s.tasks.find? (fun u => u.tid = tid) with _ | t <;> rw [hf] at h
    · exact Option.noConfusion h
    · have ht : t ∈ s.tasks := List.mem_of_find?_eq_some hf
      have hg : t.gid ≠ k := hu3 t ht
      cases hp : t.phase
      case spawned => simp [hp] at h
      case executing op => simp [hp] at h
      case waiting =>
        simp only [hp] at h
        rcases hq : alookup s.episode_queues t.gid with _ | q
        · simp [hq] at h
        · simp only [hq] at h
          rcases hi : q.items with _ | ⟨op, rest⟩
          · simp [hi] at h
          · simp only [hi] at h
            obtain rfl := Option.some.inj h
            refine ⟨?_, ?_, ?_⟩
            · rw [alookup_aset_ne _ _ _ _ (Ne.symm hg)]; exact hu1
            · exact hu2
            · intro u hup
              obtain ⟨t', ht', heq⟩ := setPhase_gids _ _ _ u hup
              rw [heq]; exact hu3 t' ht'
  | stop tid =>
    simp only [stepFn] at h
    unfold stopStep at h
    rcases hf : s.tasks.find? (fun u => u.tid = tid) with _ | t <;> rw [hf] at h
    · exact Option.noConfusion h
    · have ht : t ∈ s.tasks := List.mem_of_find?_eq_some hf
      have hg : t.gid ≠ k := hu3 t ht
      cases hp : t.phase
      case spawned => simp [hp] at h
      all_goals
        simp only [hp] at h
      all_goals
        obtain rfl := Option.some.inj h
      all_goals
        refine ⟨hu1, ?_, ?_⟩
      all_goals
        first
        | (rw [alookup_aset_ne _ _ _ _ (Ne.symm hg)]; exact hu2)
        | (intro u hup
           exact hu3 u (List.mem_of_mem_filter hup))

/-- If no label in the schedule submits for `k`, running it preserves
`untouched k`. -/
theorem runTrace_untouched (ls : List Label) (s s' : Sys) (k : String)
    (h : runTrace ls s = some s') (hl : ∀ op, Label.submit k op ∉ ls)
    (hu : untouched k s) : untouched k s' := by
  induction ls generalizing s with
  | nil => simp only [runTrace] at h; exact (Option.some.inj h) ▸ hu
  | cons l rest ih =>
    simp only [runTrace] at h
    rcases hstep : stepFn l s with _ | s1 <;> rw [hstep] at h
    · exact Option.noConfusion h
    · have hl1 : ∀ op, l ≠ .submit k op := by
        intro op hlop
        exact hl op (by rw [hlop]; exact List.mem_cons_self _ _)
      have hl2 : ∀ op, Label.submit k op ∉ rest := by
        intro op hmem
        exact hl op (List.mem_cons_of_mem _ hmem)
      exact ih s1 h hl2 (stepFn_untouched l s s1 k hstep hl1 hu)

/-- C8: lazy worker creation.  (1) Along any realizable schedule from the
initial state containing no submission for key `k`, the state has no queue
entry, no worker-table entry and no worker task for `k`.  (2) From any such
untouched state with the client initialized, the first `add_memory` for `k`
creates its queue containing exactly the submitted operation and spawns its
(single) worker task. -/
theorem c8_lazy_worker_creation (k : String) :
    (∀ ls s, runTrace ls initSys = some s → (∀ op, Label.submit k op ∉ ls) →
       alookup s.episode_queues k = none ∧ alookup s.queue_workers k = none ∧
         ∀ t ∈ s.tasks, t.gid ≠ k) ∧
    (∀ s (op : Op), s.clientInit = true → alookup s.episode_queues k = none →
       alookup s.queue_workers k = none →
       alookup (addMemory s k op).1.episode_queues k = some ⟨[op], 1⟩ ∧
         (addMemory s k op).1.tasks = s.tasks ++ [⟨s.nextTid, k, .spawned⟩]) := by
  constructor
  · intro ls s h hl
    exact runTrace_untouched ls initSys s k h hl ⟨rfl, rfl, by simp [initSys]⟩
  · intro s op hc hq hw
    have hc' : ¬(s.clientInit = false) := by simp [hc]
    simp [addMemory, hc', hq, hw, alookup_aset_self]

/-- The state after submitting for `"g"` and starting its worker: a
schedule with no submission for key `"z"`. -/
def c8TraceState : Sys := (runTrace [.submit "g" opA, .start 0] initSys).getD initSys

/-- Witness for C8: key `"z"`, never submitted along the concrete schedule,
has no queue, no worker entry and no worker task there; and the first
submission for `"z"` from the initial state creates its queue and spawns
its worker. -/
theorem c8_lazy_worker_creation_witness :
    (alookup c8TraceState.episode_queues "z" = none ∧
      alookup c8TraceState.queue_workers "z" = none ∧
        ∀ t ∈ c8TraceState.tasks, t.gid ≠ "z") ∧
    (alookup (addMemory initSys "z" opA).1.episode_queues "z" = some ⟨[opA], 1⟩ ∧
      (addMemory initSys "z" opA).1.tasks
        = initSys.tasks ++ [⟨initSys.nextTid, "z", .spawned⟩]) :=
  ⟨(c8_lazy_worker_creation "z").1 [.submit "g" opA, .start 0] c8TraceState
      (by decide)
      (by intro op hmem; simp [Label.submit.injEq] at hmem),
    (c8_lazy_worker_creation "z").2 initSys opA rfl rfl rfl⟩

/-! ## C3: failure isolation in the worker loop -/

/-- The event trace the worker loop produces while draining, starting just
after it began executing the first listed operation: each operation ends
(normally or raising), a raising one is logged, and the next one begins. -/
def drainEvents (k : String) : List Op → List Ev
  | [] => []
  | [op] => .ended k op.id :: (if op.raises then [.errlog k op.id] else [])
  | op :: op2 :: rest =>
    (.ended k op.id :: (if op.raises then [.errlog k op.id] else []))
      ++ (.began k op2.id :: drainEvents k (op2 :: rest))

/-- A worker executing `op` with `rest` still queued and `rest.length + 1`
unfinished items drains the queue in `rest.length + 1` finish-slices:
every queued operation runs (in order, per `drainEvents`), the unfinished
counter reaches `0` (one `task_done` per processed item), and the worker
is still alive, parked on `get()`. -/
theorem worker_drains_queue (k : String) (tid : Nat) (rest : List Op) (op : Op) (s : Sys)
    (htasks : s.tasks = [⟨tid, k, .executing op⟩])
    (hq : alookup s.episode_queues k = some ⟨rest, rest.length + 1⟩) :
    ∃ s', runTrace (List.replicate (rest.length + 1) (.finish tid)) s = some s' ∧
      s'.events = s.events ++ drainEvents k (op :: rest) ∧
      alookup s'.episode_queues k = some ⟨[], 0⟩ ∧
      s'.tasks = [⟨tid, k, .waiting⟩] := by
  induction rest generalizing op s with
  | nil =>
    refine ⟨{ s with
        episode_queues := aset s.episode_queues k ⟨[], 0⟩
        tasks := [⟨tid, k, .waiting⟩]
        events := s.events ++ ([.ended k op.id]
          ++ (if op.raises then [.errlog k op.id] else [])) }, ?_, ?_, ?_, ?_⟩
    · simp [runTrace, List.replicate, stepFn, finishStep, htasks, hq, tryGet,
        setPhase, beganEvents, List.find?]
    · simp [drainEvents]
    · exact alookup_aset_self _ _ _
    · rfl
  | cons op2 rest' ih =>
    have hstep : stepFn (.finish tid) s = some { s with
        episode_queues := aset s.episode_queues k ⟨rest', rest'.length + 1⟩
        tasks := [⟨tid, k, .executing op2⟩]
        events := s.events ++ ([.ended k op.id]
          ++ (if op.raises then [.errlog k op.id] else [])
          ++ [.began k op2.id]) } := by
      simp [stepFn, finishStep, htasks, hq, tryGet, setPhase, beganEvents, List.find?]
    obtain ⟨s', h1, h2, h3, h4⟩ := ih op2
      { s with
        episode_queues := aset s.episode_queues k ⟨rest', rest'.length + 1⟩
        tasks := [⟨tid, k, .executing op2⟩]
        events := s.events ++ ([.ended k op.id]
          ++ (if op.raises then [.errlog k op.id] else [])
          ++ [.began k op2.id]) }
      rfl (alookup_aset_self _ _ _)
    refine ⟨s', ?_, ?_, h3, h4⟩
    · rw [List.length_cons, List.replicate_succ, runTrace, hstep]
      exact h1
    · rw [h2]
      simp [drainEvents, List.append_assoc]

/-- Every operation in the list ends (and, if raising, is logged) somewhere
in the drain trace. -/
theorem drainEvents_mem (k : String) : ∀ (ops : List Op), ∀ o ∈ ops,
    Ev.ended k o.id ∈ drainEvents k ops ∧
      (o.raises = true → Ev.errlog k o.id ∈ drainEvents k ops)
  | [] => by simp
  | [op] => by
    intro o ho
    simp only [List.mem_singleton] at ho
    subst ho
    refine ⟨by simp [drainEvents], fun hr => by simp [drainEvents, hr]⟩
  | op :: op2 :: rest => by
    intro o ho
    rcases List.mem_cons.mp ho with h | h
    · subst h
      refine ⟨by simp [drainEvents], fun hr => by simp [drainEvents, hr]⟩
    · have hm := drainEvents_mem k (op2 :: rest) o h
      constructor
      · simp only [drainEvents, List.mem_append, List.mem_cons]
        exact Or.inr (Or.inr hm.1)
      · intro hr
        simp only [drainEvents, List.mem_append, List.mem_cons]
        exact Or.inr (Or.inr (hm.2 hr))

/-- C3: failure isolation.  If the worker for key `k` is executing `op`
with `rest` still queued (`rest.length + 1` unfinished items), then the
next `rest.length + 1` worker slices execute EVERY queued operation in
order — raising operations are logged (`errlog`) and do not prevent any
later operation from executing — the unfinished counter ends at `0`
(exactly one `task_done` per processed item, success or failure), and the
worker survives, parked on the next `get()`. -/
theorem c3_failing_op_does_not_stop_worker (k : String) (tid : Nat) (op : Op)
    (rest : List Op) (s : Sys)
    (htasks : s.tasks = [⟨tid, k, .executing op⟩])
    (hq : alookup s.episode_queues k = some ⟨rest, rest.length + 1⟩) :
    ∃ s', runTrace (List.replicate (rest.length + 1) (.finish tid)) s = some s' ∧
      s'.events = s.events ++ drainEvents k (op :: rest) ∧
      (∀ o ∈ op :: rest, Ev.ended k o.id ∈ s'.events ∧
        (o.raises = true → Ev.errlog k o.id ∈ s'.events)) ∧
      alookup s'.episode_queues k = some ⟨[], 0⟩ ∧
      s'.tasks = [⟨tid, k, .waiting⟩] := by
  obtain ⟨s', h1, h2, h3, h4⟩ := worker_drains_queue k tid rest op s htasks hq
  refine ⟨s', h1, h2, ?_, h3, h4⟩
  intro o ho
  have hm := drainEvents_mem k (op :: rest) o ho
  rw [h2]
  exact ⟨List.mem_append_right _ hm.1, fun hr => List.mem_append_right _ (hm.2 hr)⟩

/-- An episode closure that raises (the `write-2` of the spec scenario). -/
def opR : Op := ⟨2, true⟩

/-- A third episode closure (does not raise). -/
def opC : Op := ⟨3, false⟩

/-- The spec's scenario state: three operations submitted for `"g"` with
the middle one raising; the worker has begun the first. -/
def c3Start : Sys :=
  (runTrace [.submit "g" opA, .start 0, .submit "g" opR, .submit "g" opC]
    initSys).getD initSys

/-- Witness for C3: the concrete three-operation scenario (middle one
raises) drains completely; all three operations end, the raising one is
logged, and the worker keeps running. -/
theorem c3_failing_op_does_not_stop_worker_witness :
    ∃ s', runTrace (List.replicate ([opR, opC].length + 1) (.finish 0)) c3Start
        = some s' ∧
      s'.events = c3Start.events ++ drainEvents "g" (opA :: [opR, opC]) ∧
      (∀ o ∈ opA :: [opR, opC], Ev.ended "g" o.id ∈ s'.events ∧
        (o.raises = true → Ev.errlog "g" o.id ∈ s'.events)) ∧
      alookup s'.episode_queues "g" = some ⟨[], 0⟩ ∧
      s'.tasks = [⟨0, "g", .waiting⟩] :=
  c3_failing_op_does_not_stop_worker "g" 0 opA [opR, opC] c3Start
    (by decide) (by decide)

/-! ## FalkorDriver.execute_query (graphiti_core/driver/falkordb_driver.py) -/

/-- Is `needle` a prefix of the character list? (model of Python substring
matching, used for `"already indexed" in str(e)`). -/
def pfxChars : List Char → List Char → Bool
  | [], _ => true
  | _ :: _, [] => false
  | a :: as, b :: bs => a == b && pfxChars as bs

/-- Does `needle` occur contiguously in the character list? -/
def subChars (needle : List Char) : List Char → Bool
  | [] => pfxChars needle []
  | c :: tl => pfxChars needle (c :: tl) || subChars needle tl

/-- Python `needle in hay` on strings. -/
def strContains (hay needle : String) : Bool := subChars needle.data hay.data

/-- What the backend `graph.query` call produced: `header` is FalkorDB's
list of (column-type, column-name) pairs, `result_set` the list of rows.
Cell values are opaque (`V`). -/
structure QueryReply (V : Type) where
  header : List (Nat × String)
  result_set : List (List V)
deriving DecidableEq

/-- The outcome of `await graph.query(...)`: a reply, or a raised
exception with its message (`str(e)`). -/
inductive QueryOutcome (V : Type) where
  | ok (r : QueryReply V)
  | raised (msg : String)
deriving DecidableEq

/-- `[h[1] for h in result.header]`: the column names. -/
def headerNames {V : Type} (r : QueryReply V) : List String :=
  r.header.map (fun h => h.2)

/-- The loop body of the record construction:
`for i, field_name in enumerate(header): record[field_name] = row[i] if i <
len(row) else None`.  `row.get? i` is exactly `row[i] if i < len(row) else
None`, and `aset` is Python dict assignment (overwrite in place, append new
keys). -/
def buildRecordAux {V : Type} (row : List V) :
    Nat → List String → List (String × Option V) → List (String × Option V)
  | _, [], d => d
  | i, name :: rest, d => buildRecordAux row (i + 1) rest (aset d name (row.get? i))

/-- One `record` of `FalkorDriver.execute_query`. -/
def buildRecord {V : Type} (header : List String) (row : List V) :
    List (String × Option V) :=
  buildRecordAux row 0 header []

/-- `FalkorDriver.execute_query` from the backend call onward (lines
354-387): on an exception whose message contains `"already indexed"`,
return `None`; on any other exception, re-raise; otherwise build the
records from the header names and return `(records, header, None)`. -/
def executeQuery {V : Type} (outcome : QueryOutcome V) :
    Except String (Option (List (List (String × Option V)) × List String × Option Unit)) :=
  match outcome with
  | .raised msg =>
    if strContains msg "already indexed" then Except.ok none
    else Except.error msg
  | .ok r =>
    Except.ok (some (r.result_set.map (fun row => buildRecord (headerNames r) row),
      headerNames r, none))

/-- C4 counterexample: a non-raising return of `execute_query` that is NOT
a `(rows, columns, summary)` triple.  When the backend raises with a
message containing `"already indexed"`, `execute_query` swallows the error
and returns the bare value `None`. -/
theorem c4_already_indexed_returns_bare_none :
    executeQuery (V := Nat) (QueryOutcome.raised "already indexed") = Except.ok none ∧
      ¬∃ rows cols summ,
        executeQuery (V := Nat) (QueryOutcome.raised "already indexed")
          = Except.ok (some (rows, cols, summ)) := by
  refine ⟨rfl, ?_⟩
  rintro ⟨rows, cols, summ, h⟩
  rw [show executeQuery (V := Nat) (QueryOutcome.raised "already indexed")
    = Except.ok none from rfl] at h
  exact Option.noConfusion (Except.ok.inj h)

/-- C4 (amended): every non-raising return of `execute_query` is either
the bare value `None` — exactly when the backend raised an error whose
message contains `"already indexed"` — or a triple `(rows, columns,
summary)` where `rows` is one mapping per result row, `columns` is the
list of header column names, and `summary` is always `None`. -/
theorem c4_execute_query_return_shape {V : Type} (o : QueryOutcome V)
    (res : Option (List (List (String × Option V)) × List String × Option Unit))
    (h : executeQuery o = Except.ok res) :
    (res = none →
      ∃ msg, o = .raised msg ∧ strContains msg "already indexed" = true) ∧
      (∀ rows cols summ, res = some (rows, cols, summ) →
        summ = none ∧ ∃ r, o = .ok r ∧ cols = headerNames r ∧
          rows = r.result_set.map (fun row => buildRecord (headerNames r) row)) := by
  cases o with
  | ok r =>
    simp only [executeQuery, Except.ok.injEq] at h
    subst h
    constructor
    · intro hn; exact Option.noConfusion hn
    · intro rows cols summ hs
      simp only [Option.some.injEq, Prod.mk.injEq] at hs
      obtain ⟨h1, h2, h3⟩ := hs
      exact ⟨h3.symm, r, rfl, h2.symm, h1.symm⟩
  | raised msg =>
    by_cases hc : strContains msg "already indexed" = true
    · simp only [executeQuery, hc, if_true, Except.ok.injEq] at h
      subst h
      exact ⟨fun _ => ⟨msg, rfl, hc⟩, fun rows cols summ hs => Option.noConfusion hs⟩
    · simp [executeQuery, hc] at h

/-! ## C10: record construction from header names -/

theorem aset_eq_append {α : Type} (d : List (String × α)) (n : String) (v : α)
    (h : alookup d n = none) : aset d n v = d ++ [(n, v)] := by
  induction d with
  | nil => rfl
  | cons hd tl ih =>
    obtain ⟨k', v'⟩ := hd
    simp only [alookup] at h
    by_cases hk : n = k'
    · simp [hk] at h
    · simp only [if_neg hk] at h
      simp [aset, if_neg hk, ih h]

theorem alookup_append_ne {α : Type} (d : List (String × α)) (n m : String) (v : α)
    (h : m ≠ n) : alookup (d ++ [(n, v)]) m = alookup d m := by
  induction d with
  | nil => simp [alookup, h]
  | cons hd tl ih =>
    obtain ⟨k', v'⟩ := hd
    by_cases hk : m = k' <;> simp [alookup, hk, ih]

theorem alookup_append_self {α : Type} (d : List (String × α)) (n : String) (v : α)
    (h : alookup d n = none) : alookup (d ++ [(n, v)]) n = some v := by
  induction d with
  | nil => simp [alookup]
  | cons hd tl ih =>
    obtain ⟨k', v'⟩ := hd
    simp only [alookup] at h
    by_cases hk : n = k'
    · simp [hk] at h
    · simp only [if_neg hk] at h
      simp only [List.cons_append, alookup, if_neg hk]
      exact ih h

theorem buildRecordAux_spec {V : Type} (row : List V) :
    ∀ (names : List String) (i : Nat) (d : List (String × Option V)),
      (∀ n ∈ names, alookup d n = none) → names.Nodup →
      ((buildRecordAux row i names d).map Prod.fst = d.map Prod.fst ++ names ∧
        (∀ j (hj : j < names.length),
          alookup (buildRecordAux row i names d) (names.get ⟨j, hj⟩)
            = some (row.get? (i + j))) ∧
        (∀ n, n ∉ names →
          alookup (buildRecordAux row i names d) n = alookup d n))
  | [], i, d => by
    intro _ _
    refine ⟨by simp [buildRecordAux], ?_, ?_⟩
    · intro j hj; exact absurd hj (by simp)
    · intro n _; rfl
  | name :: rest, i, d => by
    intro hfresh hnd
    have hdn : alookup d name = none := hfresh name (List.mem_cons_self _ _)
    have hd1 : aset d name (row.get? i) = d ++ [(name, row.get? i)] :=
      aset_eq_append d name _ hdn
    have hnotin : name ∉ rest := (List.nodup_cons.mp hnd).1
    have hnd' : rest.Nodup := (List.nodup_cons.mp hnd).2
    have hfresh' : ∀ n ∈ rest, alookup (aset d name (row.get? i)) n = none := by
      intro n hn
      have hne : n ≠ name := by
        intro he
        rw [he] at hn
        exact hnotin hn
      rw [hd1, alookup_append_ne _ _ _ _ hne]
      exact hfresh n (List.mem_cons_of_mem _ hn)
    obtain ⟨ih1, ih2, ih3⟩ := buildRecordAux_spec row rest (i + 1)
      (aset d name (row.get? i)) hfresh' hnd'
    refine ⟨?_, ?_, ?_⟩
    · simp only [buildRecordAux]
      rw [ih1, hd1]
      simp
    · intro j hj
      match j with
      | 0 =>
        simp only [buildRecordAux, List.get]
        rw [ih3 name hnotin, hd1, alookup_append_self _ _ _ hdn, Nat.add_zero]
      | j' + 1 =>
        simp only [buildRecordAux]
        have hj' : j' < rest.length := by
          simpa [Nat.succ_lt_succ_iff] using hj
        have hg : (name :: rest).get ⟨j' + 1, hj⟩ = rest.get ⟨j', hj'⟩ := rfl
        have harith : i + 1 + j' = i + (j' + 1) := by omega
        rw [hg, ih2 j' hj', harith]
    · intro n hnin
      simp only [buildRecordAux]
      have hne : n ≠ name := by
        intro he
        exact hnin (he ▸ List.mem_cons_self _ _)
      rw [ih3 n (fun h => hnin (List.mem_cons_of_mem _ h)), hd1,
        alookup_append_ne _ _ _ _ hne]

/-- C10: every record of a successful `execute_query` result is a mapping
whose keys are exactly the header column names in header order (assuming
distinct column names, as a mapping requires); the value for column `j` is
`row[j]` when the row is long enough and `None` otherwise (`row.get? j`),
and no value beyond the header length is included, since the keys are
exactly the columns. -/
theorem c10_records_match_header {V : Type} (r : QueryReply V)
    (rows : List (List (String × Option V))) (cols : List String)
    (summ : Option Unit)
    (h : executeQuery (.ok r) = Except.ok (some (rows, cols, summ)))
    (hnd : cols.Nodup) :
    rows = r.result_set.map (fun row => buildRecord cols row) ∧
      ∀ row ∈ r.result_set,
        (buildRecord cols row).map Prod.fst = cols ∧
          ∀ j (hj : j < cols.length),
            alookup (buildRecord cols row) (cols.get ⟨j, hj⟩)
              = some (row.get? j) := by
  simp only [executeQuery, Except.ok.injEq, Option.some.injEq, Prod.mk.injEq] at h
  obtain ⟨h1, h2, h3⟩ := h
  subst h2
  refine ⟨h1.symm, ?_⟩
  intro row hrow
  obtain ⟨k1, k2, k3⟩ := buildRecordAux_spec row (headerNames r) 0 []
    (fun n _ => rfl) hnd
  constructor
  · simpa [buildRecord] using k1
  · intro j hj
    have := k2 j hj
    rw [Nat.zero_add] at this
    exact this

/-- A concrete backend reply: two columns, one row shorter than the
header. -/
def c10Reply : QueryReply Nat := ⟨[(0, "a"), (1, "b")], [[5]]⟩

/-- Witness for C10: on the concrete reply the single record has keys
exactly `["a", "b"]` in order, value `5` for `"a"` and `None` for the
missing column `"b"`. -/
theorem c10_records_match_header_witness :
    [[("a", some 5), ("b", (none : Option Nat))]]
        = c10Reply.result_set.map (fun row => buildRecord ["a", "b"] row) ∧
      ∀ row ∈ c10Reply.result_set,
        (buildRecord ["a", "b"] row).map Prod.fst = ["a", "b"] ∧
          ∀ j (hj : j < (["a", "b"] : List String).length),
            alookup (buildRecord ["a", "b"] row) ((["a", "b"] : List String).get ⟨j, hj⟩)
              = some (row.get? j) :=
  c10_records_match_header c10Reply [[("a", some 5), ("b", none)]] ["a", "b"] none
    rfl (by decide)

/-- Witness for the amended C4: applying the shape theorem at the concrete
`already indexed` outcome, whose non-raising return is the bare `None`. -/
theorem c4_execute_query_return_shape_witness :
    ((none : Option (List (List (String × Option Nat)) × List String × Option Unit))
        = none →
      ∃ msg, (QueryOutcome.raised "already indexed" : QueryOutcome Nat)
          = .raised msg ∧ strContains msg "already indexed" = true) ∧
      (∀ rows cols summ,
        (none : Option (List (List (String × Option Nat)) × List String × Option Unit))
          = some (rows, cols, summ) →
        summ = none ∧ ∃ r,
          (QueryOutcome.raised "already indexed" : QueryOutcome Nat) = .ok r ∧
            cols = headerNames r ∧
            rows = r.result_set.map (fun row => buildRecord (headerNames r) row)) :=
  c4_execute_query_return_shape (QueryOutcome.raised "already indexed") none rfl

/-! ## DriverFactory.create_driver (graphiti_core/driver/factory.py) -/

/-- The class of the raised Python exception. -/
inductive ErrKind where
  | valueError
  | importError
deriving DecidableEq

/-- A raised Python exception: its class and its message. -/
structure PyErr where
  kind : ErrKind
  msg : String
deriving DecidableEq

/-- The driver instance `create_driver` returns (constructor arguments
only; the connection itself is external). -/
inductive Driver where
  | neo4j (uri : String) (user password database : Option String)
  | falkor (database : Option String)
deriving DecidableEq

/-- The message of the unsupported-type `ValueError` (the source writes
the two supported names within single quotes; the quotes are elided
here). -/
def unsupportedMsg (t : String) : String :=
  "Unsupported database type: " ++ t ++ ". Supported types: neo4j, falkordb"

/-- The message of the missing-uri `ValueError`. -/
def uriMissingMsg : String := "uri must be provided when using Neo4j driver"

/-- Python `str.lower()`, character-wise (the backend names involved are
ASCII). -/
def strToLower (s : String) : String := ⟨s.data.map Char.toLower⟩

/-- `DriverFactory.create_driver` (lines 61-93): read `GRAPHITI_DB_TYPE`
(default `neo4j`), lowercase it; `falkordb` builds a FalkorDriver (or
raises `ImportError` when the package is unavailable); `neo4j` requires a
`uri` and otherwise builds a Neo4jDriver; any other name raises a
`ValueError` naming the type. -/
def createDriver (dbTypeEnv uri user password database : Option String)
    (falkordbAvailable : Bool) : Except PyErr Driver :=
  let db_type := strToLower (dbTypeEnv.getD "neo4j")
  if db_type = "falkordb" then
    if falkordbAvailable then Except.ok (.falkor database)
    else Except.error ⟨.importError,
      "FalkorDB driver is not available. Install it with: pip install graphiti-core[falkordb]"⟩
  else if db_type = "neo4j" then
    match uri with
    | none => Except.error ⟨.valueError, uriMissingMsg⟩
    | some u => Except.ok (.neo4j u user password database)
  else Except.error ⟨.valueError, unsupportedMsg db_type⟩

theorem unsupportedMsg_ne_uriMissing (t : String) :
    unsupportedMsg t ≠ uriMissingMsg := by
  intro h
  have hl := congrArg String.length h
  rw [unsupportedMsg, uriMissingMsg, String.length_append, String.length_append,
    show ("Unsupported database type: " : String).length = 27 from rfl,
    show (". Supported types: neo4j, falkordb" : String).length = 34 from rfl,
    show ("uri must be provided when using Neo4j driver" : String).length = 44
      from rfl] at hl
  omega

/-- C7: backend names other than the two supported ones make
`create_driver` fail with a `ValueError` whose message names the
unsupported type, and a missing `uri` for the Neo4j backend fails with a
distinct `ValueError` (different message, never equal to any
unsupported-type message). -/
theorem c7_factory_error_classes (dbTypeEnv uri user password database : Option String)
    (favail : Bool) :
    (strToLower (dbTypeEnv.getD "neo4j") ≠ "falkordb" →
      strToLower (dbTypeEnv.getD "neo4j") ≠ "neo4j" →
      createDriver dbTypeEnv uri user password database favail
          = Except.error ⟨.valueError, unsupportedMsg (strToLower (dbTypeEnv.getD "neo4j"))⟩ ∧
        (∃ a b, unsupportedMsg (strToLower (dbTypeEnv.getD "neo4j"))
          = a ++ strToLower (dbTypeEnv.getD "neo4j") ++ b) ∧
        unsupportedMsg (strToLower (dbTypeEnv.getD "neo4j")) ≠ uriMissingMsg) ∧
      (strToLower (dbTypeEnv.getD "neo4j") = "neo4j" → uri = none →
        createDriver dbTypeEnv uri user password database favail
          = Except.error ⟨.valueError, uriMissingMsg⟩) := by
  constructor
  · intro h1 h2
    refine ⟨by simp [createDriver, h1, h2], ?_, unsupportedMsg_ne_uriMissing _⟩
    exact ⟨"Unsupported database type: ", ". Supported types: neo4j, falkordb", rfl⟩
  · intro h1 h2
    simp [createDriver, h1, h2]

/-- Witness for C7: the unsupported name `sqlite` raises the naming
`ValueError`, and the default backend (`neo4j`) with no `uri` raises the
distinct missing-uri `ValueError`. -/
theorem c7_factory_error_classes_witness :
    (createDriver (some "sqlite") none none none none true
        = Except.error ⟨.valueError, unsupportedMsg (strToLower ((some "sqlite").getD "neo4j"))⟩ ∧
      (∃ a b, unsupportedMsg (strToLower ((some "sqlite").getD "neo4j"))
        = a ++ strToLower ((some "sqlite").getD "neo4j") ++ b) ∧
      unsupportedMsg (strToLower ((some "sqlite").getD "neo4j")) ≠ uriMissingMsg) ∧
      (createDriver none none none none none true
        = Except.error ⟨.valueError, uriMissingMsg⟩) :=
  ⟨(c7_factory_error_classes (some "sqlite") none none none none true).1
      (by decide) (by decide),
    (c7_factory_error_classes none none none none none true).2 (by decide) rfl⟩
